import Mathlib

/-!
A shallow embedding of `chess_with_icons/chess_logic.py`: the chess rules
engine (FEN loading, attack detection, pseudo-legal move generation, the
legality filter, and the make/undo mutator), together with theorems about
the properties claimed of it.

Python's mutable `GameState` becomes an immutable structure; every mutating
method becomes a function returning the updated state (and, for `make_move`,
the updated `Move`, since the Python code mutates the move in place).
Python's two-character piece strings (`"wP"`, `"bK"`, ...) become the

inductive `Sq`; the empty-square string `"."` becomes `Sq.e`.
Board coordinates are `Int` (Python ints; knight/ray offsets go negative
before the `in_bounds` guard).  Python list indexing wraps negative indices
`-len ≤ i < 0`; truly out-of-range indexing raises in Python and is
modelled by a default value / identity update (no claim exercises it).
-/

inductive Side where
  | w
  | b
deriving DecidableEq

inductive Kind where
  | P
  | R
  | N
  | B
  | Q
  | K
deriving DecidableEq

/-- A square's content: `"."` or a two-character side+kind piece string. -/
inductive Sq where
  | e
  | s (side : Side) (kind : Kind)
deriving DecidableEq

def oppS : Side → Side
  | .w => .b
  | .b => .w

/-- `piece[0] == "w"` in Python (false on `"."`, which has no second char). -/
def sqIsW : Sq → Bool
  | .s .w _ => true
  | _ => false

/-- `piece[1] == k` in Python (false on `"."`). -/
def sqKindIs (s : Sq) (k : Kind) : Bool :=
  match s with
  | .s _ k' => k' == k
  | .e => false

/-- `p[0] == side and p[1] in kinds` for an occupied square. -/
def sqSideKindIn (s : Sq) (side : Side) (kinds : List Kind) : Bool :=
  match s with
  | .s sd k => sd == side && kinds.contains k
  | .e => false

/-- Python list read `l[i]`: negative indices wrap; out-of-range raises
(modelled by the default `d`). -/
def lgetI (l : List α) (i : Int) (d : α) : α :=
  let j : Int := if i < 0 then (l.length : Int) + i else i
  if 0 ≤ j then l.getD j.toNat d else d

/-- Python list write `l[i] = v`: negative indices wrap; out-of-range raises
(modelled as the identity). -/
def lsetI (l : List α) (i : Int) (v : α) : List α :=
  let j : Int := if i < 0 then (l.length : Int) + i else i
  if 0 ≤ j then l.set j.toNat v else l

/-- `self.board[r][c]`. -/
def bget (b : List (List Sq)) (r c : Int) : Sq :=
  lgetI (lgetI b r []) c Sq.e

/-- `self.board[r][c] = v`. -/
def bset (b : List (List Sq)) (r c : Int) (v : Sq) : List (List Sq) :=
  lsetI b r (lsetI (lgetI b r []) c v)

/-- The four castling-rights booleans (`self.castling_rights` dict). -/
structure CRights where
  wK : Bool
  wQ : Bool
  bK : Bool
  bQ : Bool
deriving DecidableEq

/-- The `Move` dataclass.  `endSq` is Python's `end` (a Lean keyword).
`prev_castling` defaults to all-false standing in for Python's `None`
(it is only ever read after `make_move` has overwritten it). -/
structure Move where
  start : Int × Int
  endSq : Int × Int
  piece : Sq
  captured : Option Sq := none
  promotion : Option Kind := none
  is_en_passant : Bool := false
  is_castle : Bool := false
  prev_castling : CRights := ⟨false, false, false, false⟩
  prev_en_passant : Option (Int × Int) := none
  prev_halfmove : Int := 0
  prev_fullmove : Int := 1
deriving DecidableEq

/-- The `GameState` object's fields. -/
structure GameState where
  board : List (List Sq)
  white_to_move : Bool
  castling_rights : CRights
  en_passant : Option (Int × Int)
  halfmove_clock : Int
  fullmove_number : Int
  checkmate : Bool
  stalemate : Bool
deriving DecidableEq

def START_FEN : String := "rnbqkbnr/pppppppp/8/8/8/8/PPPPPPPP/RNBQKBNR w KQkq - 0 1"

/-- `algebraic_to_pos`: `(8 - int(s[1]), ord(s[0].lower()) - ord('a'))`;
`none` models the `ValueError` Python raises when `s[1]` is not a digit
(or the `IndexError` on a short string). -/
def algebraic_to_pos (s : List Char) : Option (Int × Int) :=
  match s with
  | c0 :: c1 :: _ =>
    if c1.isDigit then
      some ((8 : Int) - ((c1.toNat - '0'.toNat : Nat) : Int),
            ((c0.toLower.toNat : Int) - ('a'.toNat : Int)))
    else none
  | _ => none

/-- `fen.split()`: split on whitespace runs, dropping empty tokens. -/
def splitWords (l : List Char) : List (List Char) :=
  (l.foldr
    (fun c acc =>
      if c.isWhitespace then [] :: acc
      else
        match acc with
        | [] => [[c]]
        | w :: rest => (c :: w) :: rest)
    []).filter (· ≠ [])

/-- `board_part.split("/")` (keeps empty pieces, like Python `str.split(sep)`). -/
def splitOnChar (sep : Char) (l : List Char) : List (List Char) :=
  l.foldr
    (fun c acc =>
      if c = sep then [] :: acc
      else
        match acc with
        | [] => [[c]]
        | w :: rest => (c :: w) :: rest)
    [[]]

/-- The `mapping = {"p":"P", ...}` piece-letter table; `none` is the
`KeyError` on an unrecognized letter. -/
def charKind : Char → Option Kind
  | 'p' => some .P
  | 'r' => some .R
  | 'n' => some .N
  | 'b' => some .B
  | 'q' => some .Q
  | 'k' => some .K
  | _ => none

/-- One FEN board row: digits expand to that many `"."`, letters map through
the piece table with uppercase = white. -/
def parseRow (r : List Char) : Option (List Sq) :=
  r.foldlM
    (fun acc ch =>
      if ch.isDigit then
        some (acc ++ List.replicate (ch.toNat - '0'.toNat) Sq.e)
      else
        match charKind ch.toLower with
        | some k =>
          some (acc ++ [Sq.s (if ch.isUpper then Side.w else Side.b) k])
        | none => none)
    []

/-- Digits-only string to `Nat` (`none` when empty or a non-digit occurs). -/
def digitsToNat (l : List Char) : Option Nat :=
  match l with
  | [] => none
  | _ =>
    l.foldlM
      (fun acc ch => if ch.isDigit then some (acc * 10 + (ch.toNat - '0'.toNat)) else none)
      0

/-- Python `int(s)` on split tokens: optional sign then digits;
`none` is the `ValueError`. -/
def parseInt (s : List Char) : Option Int :=
  match s with
  | '-' :: rest => (digitsToNat rest).map (fun n => -(n : Int))
  | '+' :: rest => (digitsToNat rest).map (fun n => (n : Int))
  | l => (digitsToNat l).map (fun n => (n : Int))

/-- The body of `load_fen` after `parts` has been unpacked into the six
fields.  `none` models any exception Python would raise mid-parse. -/
def load_parts (board_part turn castling enp half full : List Char) :
    Option GameState := do
  let rows := splitOnChar '/' board_part
  let board ← rows.mapM parseRow
  let en_passant ←
    if enp = ['-'] then some none
    else (algebraic_to_pos enp).map some
  let halfmove ← parseInt half
  let fullmove ← parseInt full
  some
    { board := board
      white_to_move := turn == ['w']
      castling_rights :=
        { wK := castling.contains 'K'
          wQ := castling.contains 'Q'
          bK := castling.contains 'k'
          bQ := castling.contains 'q' }
      en_passant := en_passant
      halfmove_clock := halfmove
      fullmove_number := fullmove
      checkmate := false
      stalemate := false }

/-- `load_fen`: split into six whitespace-separated fields (`none` models the
unpacking `ValueError` on any other count) and parse them. -/
def load_fen (fen : String) : Option GameState :=
  match splitWords fen.data with
  | [board_part, turn, castling, enp, half, full] =>
    load_parts board_part turn castling enp half full
  | _ => none

/-- `locate_king`: row-major scan of the 8×8 index range for `side + "K"`,
returning `(-1, -1)` when absent. -/
def locate_king (g : GameState) (side : Side) : Int × Int :=
  match (List.range 8).findSome?
      (fun r =>
        (List.range 8).findSome?
          (fun c =>
            if bget g.board (Int.ofNat r) (Int.ofNat c) = Sq.s side Kind.K then
              some (Int.ofNat r, Int.ofNat c)
            else none)) with
  | some p => p
  | none => (-1, -1)

def in_bounds (r c : Int) : Prop :=
  0 ≤ r ∧ r < 8 ∧ 0 ≤ c ∧ c < 8

instance (r c : Int) : Decidable (in_bounds r c) := by
  unfold in_bounds; infer_instance

def knightOffs : List (Int × Int) :=
  [(-2, -1), (-2, 1), (-1, -2), (-1, 2), (1, -2), (1, 2), (2, -1), (2, 1)]

def diagDirs : List (Int × Int) := [(-1, -1), (-1, 1), (1, -1), (1, 1)]

def orthoDirs : List (Int × Int) := [(-1, 0), (1, 0), (0, -1), (0, 1)]

/-- The `dr, dc` king-adjacency offsets in the Python nested-loop order. -/
def kingOffs : List (Int × Int) :=
  [(-1, -1), (-1, 0), (-1, 1), (0, -1), (0, 1), (1, -1), (1, 0), (1, 1)]

/-- One ray walk of `square_attacked_by`: step until out of bounds or a piece
is hit; a hit attacks iff it is the attacker's with a kind in `kinds`.
Fuel 16 strictly exceeds the at most 8 in-bounds steps a ray can take. -/
def rayAtt (g : GameState) (att : Side) (kinds : List Kind) (dr dc : Int) :
    Nat → Int → Int → Bool
  | 0, _, _ => false
  | n + 1, rr, cc =>
    if in_bounds rr cc then
      match bget g.board rr cc with
      | Sq.e => rayAtt g att kinds dr dc n (rr + dr) (cc + dc)
      | Sq.s sd k => sd == att && kinds.contains k
    else false

/-- `square_attacked_by(r, c, attacker_side)`. -/
def square_attacked_by (g : GameState) (r c : Int) (att : Side) : Bool :=
  let pr : Int := if att = Side.w then -1 else 1
  ([-1, 1] : List Int).any
      (fun dc =>
        decide (in_bounds (r + pr) (c + dc)) &&
          (bget g.board (r + pr) (c + dc) == Sq.s att Kind.P)) ||
    knightOffs.any
      (fun d =>
        decide (in_bounds (r + d.1) (c + d.2)) &&
          (bget g.board (r + d.1) (c + d.2) == Sq.s att Kind.N)) ||
    diagDirs.any
      (fun d => rayAtt g att [Kind.B, Kind.Q] d.1 d.2 16 (r + d.1) (c + d.2)) ||
    orthoDirs.any
      (fun d => rayAtt g att [Kind.R, Kind.Q] d.1 d.2 16 (r + d.1) (c + d.2)) ||
    kingOffs.any
      (fun d =>
        decide (in_bounds (r + d.1) (c + d.2)) &&
          (bget g.board (r + d.1) (c + d.2) == Sq.s att Kind.K))

/-- `in_check(white_side_turn)`. -/
def in_check (g : GameState) (white_side_turn : Bool) : Bool :=
  let side := if white_side_turn then Side.w else Side.b
  let kp := locate_king g side
  square_attacked_by g kp.1 kp.2 (if side = Side.w then Side.b else Side.w)

/-- `forward = -1 if side == "w" else 1`. -/
def fwdD : Side → Int
  | .w => -1
  | .b => 1

/-- The pawn branch of `generate_pseudo_legal` for the pawn on `(r, c)`:
single push (with default-queen promotion on the far rank), double push from
the starting rank, the two diagonal captures, then the en-passant capture —
in the source's append order. -/
def pawnMoves (g : GameState) (side : Side) (r c : Int) : List Move :=
  let p := Sq.s side Kind.P
  let f := fwdD side
  let start_rank : Int := if side = Side.w then 6 else 1
  let fwd1 : List Move :=
    if in_bounds (r + f) c ∧ bget g.board (r + f) c = Sq.e then
      { start := (r, c), endSq := (r + f, c), piece := p,
        promotion :=
          if (r + f = 0 ∧ side = Side.w) ∨ (r + f = 7 ∧ side = Side.b) then
            some Kind.Q
          else none } ::
        (if r = start_rank ∧ bget g.board (r + 2 * f) c = Sq.e then
          [{ start := (r, c), endSq := (r + 2 * f, c), piece := p }]
        else [])
    else []
  let caps : List Move :=
    ([-1, 1] : List Int).filterMap
      (fun dc =>
        if in_bounds (r + f) (c + dc) then
          match bget g.board (r + f) (c + dc) with
          | Sq.s ts tk =>
            if ts = oppS side then
              some
                { start := (r, c), endSq := (r + f, c + dc), piece := p,
                  captured := some (Sq.s ts tk),
                  promotion :=
                    if (r + f = 0 ∧ side = Side.w) ∨ (r + f = 7 ∧ side = Side.b) then
                      some Kind.Q
                    else none }
            else none
          | Sq.e => none
        else none)
  let eps : List Move :=
    match g.en_passant with
    | some ep =>
      if r + f = ep.1 ∧ (c - ep.2).natAbs = 1 then
        [{ start := (r, c), endSq := (ep.1, ep.2), piece := p,
           captured := some (Sq.s (oppS side) Kind.P), is_en_passant := true }]
      else []
    | none => []
  fwd1 ++ caps ++ eps

/-- The knight branch: the eight fixed-offset jumps onto empty or
enemy-occupied in-bounds squares. -/
def knightMoves (g : GameState) (side : Side) (r c : Int) : List Move :=
  knightOffs.filterMap
    (fun d =>
      if in_bounds (r + d.1) (c + d.2) then
        match bget g.board (r + d.1) (c + d.2) with
        | Sq.e =>
          some { start := (r, c), endSq := (r + d.1, c + d.2), piece := Sq.s side Kind.N }
        | Sq.s ts tk =>
          if ts = oppS side then
            some
              { start := (r, c), endSq := (r + d.1, c + d.2), piece := Sq.s side Kind.N,
                captured := some (Sq.s ts tk) }
          else none
      else none)

/-- One sliding ray of the B/R/Q branch: quiet moves until blocked; a
trailing enemy piece yields one capture and stops.  Fuel 16 strictly exceeds
the at most 8 in-bounds steps a ray can take. -/
def rayMoves (g : GameState) (side : Side) (p : Sq) (r c dr dc : Int) :
    Nat → Int → Int → List Move
  | 0, _, _ => []
  | n + 1, rr, cc =>
    if in_bounds rr cc then
      match bget g.board rr cc with
      | Sq.e =>
        { start := (r, c), endSq := (rr, cc), piece := p } ::
          rayMoves g side p r c dr dc n (rr + dr) (cc + dc)
      | Sq.s ts tk =>
        if ts = oppS side then
          [{ start := (r, c), endSq := (rr, cc), piece := p,
             captured := some (Sq.s ts tk) }]
        else []
    else []

/-- The B/R/Q branch: the direction set depends on the kind (diagonals for
B/Q, orthogonals for R/Q), each direction walked as a ray. -/
def slideMoves (g : GameState) (side : Side) (kind : Kind) (r c : Int) : List Move :=
  let dirs :=
    (if kind = Kind.B ∨ kind = Kind.Q then diagDirs else []) ++
      (if kind = Kind.R ∨ kind = Kind.Q then orthoDirs else [])
  dirs.flatMap
    (fun d =>
      rayMoves g side (Sq.s side kind) r c d.1 d.2 16 (r + d.1) (c + d.2))

/-- The king branch: the eight adjacent squares, then the castling moves
guarded by the unrevoked right, empty in-between squares, and the three
unattacked king squares — in the source's order (white K then Q side,
black K then Q side). -/
def kingMoves (g : GameState) (side : Side) (r c : Int) : List Move :=
  let opp := oppS side
  let adj : List Move :=
    kingOffs.filterMap
      (fun d =>
        if in_bounds (r + d.1) (c + d.2) then
          match bget g.board (r + d.1) (c + d.2) with
          | Sq.e =>
            some { start := (r, c), endSq := (r + d.1, c + d.2), piece := Sq.s side Kind.K }
          | Sq.s ts tk =>
            if ts = opp then
              some
                { start := (r, c), endSq := (r + d.1, c + d.2), piece := Sq.s side Kind.K,
                  captured := some (Sq.s ts tk) }
            else none
        else none)
  let castles : List Move :=
    (if side = Side.w ∧ r = 7 ∧ c = 4 then
      (if g.castling_rights.wK = true ∧ bget g.board 7 5 = Sq.e ∧ bget g.board 7 6 = Sq.e ∧
          square_attacked_by g 7 4 opp = false ∧ square_attacked_by g 7 5 opp = false ∧
          square_attacked_by g 7 6 opp = false then
        [{ start := (7, 4), endSq := (7, 6), piece := Sq.s side Kind.K, is_castle := true }]
      else []) ++
        (if g.castling_rights.wQ = true ∧ bget g.board 7 1 = Sq.e ∧ bget g.board 7 2 = Sq.e ∧
            bget g.board 7 3 = Sq.e ∧ square_attacked_by g 7 4 opp = false ∧
            square_attacked_by g 7 3 opp = false ∧ square_attacked_by g 7 2 opp = false then
          [{ start := (7, 4), endSq := (7, 2), piece := Sq.s side Kind.K, is_castle := true }]
        else [])
    else []) ++
      (if side = Side.b ∧ r = 0 ∧ c = 4 then
        (if g.castling_rights.bK = true ∧ bget g.board 0 5 = Sq.e ∧ bget g.board 0 6 = Sq.e ∧
            square_attacked_by g 0 4 opp = false ∧ square_attacked_by g 0 5 opp = false ∧
            square_attacked_by g 0 6 opp = false then
          [{ start := (0, 4), endSq := (0, 6), piece := Sq.s side Kind.K, is_castle := true }]
        else []) ++
          (if g.castling_rights.bQ = true ∧ bget g.board 0 1 = Sq.e ∧ bget g.board 0 2 = Sq.e ∧
              bget g.board 0 3 = Sq.e ∧ square_attacked_by g 0 4 opp = false ∧
              square_attacked_by g 0 3 opp = false ∧ square_attacked_by g 0 2 opp = false then
            [{ start := (0, 4), endSq := (0, 2), piece := Sq.s side Kind.K, is_castle := true }]
          else [])
      else [])
  adj ++ castles

/-- The per-square dispatch of `generate_pseudo_legal`: skip empty or
enemy-occupied squares, then branch on the piece kind. -/
def squareMoves (g : GameState) (side : Side) (r c : Int) : List Move :=
  match bget g.board r c with
  | Sq.e => []
  | Sq.s ps kind =>
    if ps = side then
      match kind with
      | Kind.P => pawnMoves g side r c
      | Kind.N => knightMoves g side r c
      | Kind.B => slideMoves g side Kind.B r c
      | Kind.R => slideMoves g side Kind.R r c
      | Kind.Q => slideMoves g side Kind.Q r c
      | Kind.K => kingMoves g side r c
    else []

/-- `generate_pseudo_legal(side)`: row-major scan of the 8×8 board. -/
def generate_pseudo_legal (g : GameState) (side : Side) : List Move :=
  (List.range 8).flatMap
    (fun r => (List.range 8).flatMap (fun c => squareMoves g side (r : Int) (c : Int)))

/-- `make_move(mv)`: record the undo snapshot into the move, update the
clocks, relocate the piece (with the en-passant removal and recording of the
captured pawn, the promotion overwrite, and the castling rook relocation),
revoke castling rights, recompute the en-passant target, flip the side to
move.  Returns the new state and the updated move. -/
def make_move (g : GameState) (m : Move) : GameState × Move :=
  let mv : Move :=
    { m with prev_castling := g.castling_rights, prev_en_passant := g.en_passant,
             prev_halfmove := g.halfmove_clock, prev_fullmove := g.fullmove_number }
  let sr := mv.start.1
  let sc := mv.start.2
  let er := mv.endSq.1
  let ec := mv.endSq.2
  let piece := bget g.board sr sc
  let target := bget g.board er ec
  let halfmove : Int :=
    if sqKindIs piece Kind.P = true ∨ target ≠ Sq.e then 0 else g.halfmove_clock + 1
  let fullmove : Int :=
    if g.white_to_move then g.fullmove_number else g.fullmove_number + 1
  let moved := bset (bset g.board er ec piece) sr sc Sq.e
  let b1 :=
    if mv.is_en_passant then
      bset moved (er + (if sqIsW piece then 1 else -1)) ec Sq.e
    else moved
  let mv : Move :=
    if mv.is_en_passant then
      { mv with captured := some (bget moved (er + (if sqIsW piece then 1 else -1)) ec) }
    else mv
  let b2 :=
    match mv.promotion with
    | some pk =>
      -- `piece[0] + mv.promotion.upper()`; the piece is never "." when a
      -- promotion is set (the generator only promotes pawns).
      bset b1 er ec (match piece with | Sq.s ps _ => Sq.s ps pk | Sq.e => Sq.e)
    | none => b1
  let b3 :=
    if mv.is_castle then
      if er = 7 ∧ ec = 6 then bset (bset b2 7 5 (Sq.s Side.w Kind.R)) 7 7 Sq.e
      else if er = 7 ∧ ec = 2 then bset (bset b2 7 3 (Sq.s Side.w Kind.R)) 7 0 Sq.e
      else if er = 0 ∧ ec = 6 then bset (bset b2 0 5 (Sq.s Side.b Kind.R)) 0 7 Sq.e
      else if er = 0 ∧ ec = 2 then bset (bset b2 0 3 (Sq.s Side.b Kind.R)) 0 0 Sq.e
      else b2
    else b2
  let cr := g.castling_rights
  let cr := if piece = Sq.s Side.w Kind.K then { cr with wK := false, wQ := false } else cr
  let cr := if piece = Sq.s Side.b Kind.K then { cr with bK := false, bQ := false } else cr
  let cr :=
    if piece = Sq.s Side.w Kind.R then
      { cr with wQ := if sr = 7 ∧ sc = 0 then false else cr.wQ,
                wK := if sr = 7 ∧ sc = 7 then false else cr.wK }
    else cr
  let cr :=
    if piece = Sq.s Side.b Kind.R then
      { cr with bQ := if sr = 0 ∧ sc = 0 then false else cr.bQ,
                bK := if sr = 0 ∧ sc = 7 then false else cr.bK }
    else cr
  let cr :=
    if target = Sq.s Side.w Kind.R then
      { cr with wQ := if er = 7 ∧ ec = 0 then false else cr.wQ,
                wK := if er = 7 ∧ ec = 7 then false else cr.wK }
    else cr
  let cr :=
    if target = Sq.s Side.b Kind.R then
      { cr with bQ := if er = 0 ∧ ec = 0 then false else cr.bQ,
                bK := if er = 0 ∧ ec = 7 then false else cr.bK }
    else cr
  let ep : Option (Int × Int) :=
    if sqKindIs piece Kind.P = true ∧ (er - sr).natAbs = 2 then
      some ((sr + er).fdiv 2, ec)
    else none
  (⟨b3, !g.white_to_move, cr, ep, halfmove, fullmove, g.checkmate, g.stalemate⟩, mv)

/-- `undo_move(mv)`: flip the side back, undo the castling rook relocation,
restore the moved piece, restore the captured piece (with the en-passant
offset square) or clear the end square, restore rights / en-passant target /
counters from the snapshot, clear the terminal flags. -/
def undo_move (g : GameState) (mv : Move) : GameState :=
  let sr := mv.start.1
  let sc := mv.start.2
  let er := mv.endSq.1
  let ec := mv.endSq.2
  let b0 :=
    if mv.is_castle then
      if er = 7 ∧ ec = 6 then bset (bset g.board 7 7 (Sq.s Side.w Kind.R)) 7 5 Sq.e
      else if er = 7 ∧ ec = 2 then bset (bset g.board 7 0 (Sq.s Side.w Kind.R)) 7 3 Sq.e
      else if er = 0 ∧ ec = 6 then bset (bset g.board 0 7 (Sq.s Side.b Kind.R)) 0 5 Sq.e
      else if er = 0 ∧ ec = 2 then bset (bset g.board 0 0 (Sq.s Side.b Kind.R)) 0 3 Sq.e
      else g.board
    else g.board
  let b1 := bset b0 sr sc mv.piece
  let b2 :=
    if mv.is_en_passant then
      bset (bset b1 er ec Sq.e) (er + (if sqIsW mv.piece then 1 else -1)) ec
        (if sqIsW mv.piece then Sq.s Side.b Kind.P else Sq.s Side.w Kind.P)
    else
      -- `mv.captured if mv.captured else "."`: only None is falsy.
      bset b1 er ec (match mv.captured with | some s => s | none => Sq.e)
  { board := b2, white_to_move := !g.white_to_move, castling_rights := mv.prev_castling,
    en_passant := mv.prev_en_passant, halfmove_clock := mv.prev_halfmove,
    fullmove_number := mv.prev_fullmove, checkmate := false, stalemate := false }

/-- `side = "w" if self.white_to_move else "b"`. -/
def toMove (g : GameState) : Side :=
  if g.white_to_move then Side.w else Side.b

/-- The legality-filter loop of `get_all_legal_moves`: for each pseudo-legal
move, apply it, keep it unless the mover's own king is now attacked, undo
it, and continue on the resulting state. -/
def legalFilterLoop (g : GameState) : List Move → List Move × GameState
  | [] => ([], g)
  | mv :: rest =>
    let p := make_move g mv
    let keep := !(in_check p.1 (!p.1.white_to_move))
    let g2 := undo_move p.1 p.2
    let r := legalFilterLoop g2 rest
    (if keep then p.2 :: r.1 else r.1, r.2)

/-- `get_all_legal_moves`: run the legality filter over the pseudo-legal
moves of the side to move, then set the terminal flags (one flag set when
the list is empty, both cleared otherwise). -/
def get_all_legal_moves (g : GameState) : List Move × GameState :=
  let side := toMove g
  let moves := generate_pseudo_legal g side
  let lp := legalFilterLoop g moves
  let legal := lp.1
  let g1 := lp.2
  if legal = [] then
    if in_check g1 g1.white_to_move then (legal, { g1 with checkmate := true })
    else (legal, { g1 with stalemate := true })
  else (legal, { g1 with checkmate := false, stalemate := false })

/-- The observable part of a `GameState` named by the round-trip property:
board, side to move, castling rights, en-passant target, both counters
(the derived `checkmate` / `stalemate` flags are excluded). -/
def obs (g : GameState) :
    List (List Sq) × Bool × CRights × Option (Int × Int) × Int × Int :=
  (g.board, g.white_to_move, g.castling_rights, g.en_passant,
    g.halfmove_clock, g.fullmove_number)

/-- A well-formed board: exactly 8 rows of 8 squares. -/
def Board8 (b : List (List Sq)) : Prop :=
  b.length = 8 ∧ ∀ row ∈ b, row.length = 8

instance (b : List (List Sq)) : Decidable (Board8 b) := by
  unfold Board8; infer_instance

/-- Shape of a generated non-castle, non-en-passant move: flags clear,
in-bounds destination, and `captured` recording exactly the destination
square's prior content (`None` when it was empty). -/
def NormalShape (g : GameState) (side : Side) (m : Move) : Prop :=
  m.is_castle = false ∧ m.is_en_passant = false ∧
  in_bounds m.endSq.1 m.endSq.2 ∧
  m.captured =
    (match bget g.board m.endSq.1 m.endSq.2 with
     | Sq.e => none
     | Sq.s ts tk => some (Sq.s ts tk))

/-- Shape of a generated en-passant move: a pawn stepping diagonally onto
the recorded en-passant target. -/
def EpShape (g : GameState) (side : Side) (m : Move) : Prop :=
  m.is_en_passant = true ∧ m.is_castle = false ∧ m.promotion = none ∧
  m.piece = Sq.s side Kind.P ∧
  g.en_passant = some m.endSq ∧
  m.endSq.1 = m.start.1 + fwdD side ∧
  m.endSq.2 ≠ m.start.2

/-- The four castling alternatives and the guard conditions under which the
generator emits each one: the unrevoked right, the empty squares strictly
between king and rook, and the king's start / pass-through / destination
squares unattacked by the opponent. -/
def CastleSpec (g : GameState) (side : Side) (m : Move) : Prop :=
  (side = Side.w ∧ m.start = ((7 : Int), (4 : Int)) ∧
    ((m.endSq = ((7 : Int), (6 : Int)) ∧ g.castling_rights.wK = true ∧
      bget g.board 7 5 = Sq.e ∧ bget g.board 7 6 = Sq.e ∧
      square_attacked_by g 7 4 Side.b = false ∧
      square_attacked_by g 7 5 Side.b = false ∧
      square_attacked_by g 7 6 Side.b = false) ∨
     (m.endSq = ((7 : Int), (2 : Int)) ∧ g.castling_rights.wQ = true ∧
      bget g.board 7 1 = Sq.e ∧ bget g.board 7 2 = Sq.e ∧ bget g.board 7 3 = Sq.e ∧
      square_attacked_by g 7 4 Side.b = false ∧
      square_attacked_by g 7 3 Side.b = false ∧
      square_attacked_by g 7 2 Side.b = false))) ∨
  (side = Side.b ∧ m.start = ((0 : Int), (4 : Int)) ∧
    ((m.endSq = ((0 : Int), (6 : Int)) ∧ g.castling_rights.bK = true ∧
      bget g.board 0 5 = Sq.e ∧ bget g.board 0 6 = Sq.e ∧
      square_attacked_by g 0 4 Side.w = false ∧
      square_attacked_by g 0 5 Side.w = false ∧
      square_attacked_by g 0 6 Side.w = false) ∨
     (m.endSq = ((0 : Int), (2 : Int)) ∧ g.castling_rights.bQ = true ∧
      bget g.board 0 1 = Sq.e ∧ bget g.board 0 2 = Sq.e ∧ bget g.board 0 3 = Sq.e ∧
      square_attacked_by g 0 4 Side.w = false ∧
      square_attacked_by g 0 3 Side.w = false ∧
      square_attacked_by g 0 2 Side.w = false)))

/-- Shape of a generated castling move. -/
def CastleShape (g : GameState) (side : Side) (m : Move) : Prop :=
  m.is_castle = true ∧ m.is_en_passant = false ∧ m.promotion = none ∧
  m.captured = none ∧ m.piece = Sq.s side Kind.K ∧ CastleSpec g side m

/-- Everything the generator guarantees about an emitted move. -/
def GenOK (g : GameState) (side : Side) (m : Move) : Prop :=
  in_bounds m.start.1 m.start.2 ∧
  bget g.board m.start.1 m.start.2 = m.piece ∧
  (∃ k, m.piece = Sq.s side k) ∧
  m.start ≠ m.endSq ∧
  (sqKindIs m.piece Kind.P = true →
     m.endSq.1 = m.start.1 + fwdD side ∨
       (m.endSq.1 = m.start.1 + 2 * fwdD side ∧ m.endSq.2 = m.start.2)) ∧
  (NormalShape g side m ∨ EpShape g side m ∨ CastleShape g side m)

/-- What one sliding ray guarantees about each emitted move. -/
def RayOut (g : GameState) (side : Side) (kind : Kind) (r c : Int) (m : Move) : Prop :=
  m.start = (r, c) ∧ m.piece = Sq.s side kind ∧ m.is_castle = false ∧
  m.is_en_passant = false ∧ m.promotion = none ∧ m.captured ≠ some Sq.e ∧
  in_bounds m.endSq.1 m.endSq.2 ∧ m.endSq ≠ (r, c) ∧
  m.captured =
    (match bget g.board m.endSq.1 m.endSq.2 with
     | Sq.e => none
     | Sq.s ts tk => some (Sq.s ts tk))

/-- The board/flag consistency a position must satisfy for a generated
special move to be exactly reversible: a castling move needs the rook on its
home corner, an en-passant move needs the (in-bounds) target square empty and
the captured pawn on the square behind it.  FEN loading does not validate
these, so they are genuine extra hypotheses. -/
def MoveWF (g : GameState) (m : Move) : Prop :=
  (m.is_castle = true →
    ((m.endSq = ((7 : Int), (6 : Int)) → bget g.board 7 7 = Sq.s Side.w Kind.R) ∧
     (m.endSq = ((7 : Int), (2 : Int)) → bget g.board 7 0 = Sq.s Side.w Kind.R) ∧
     (m.endSq = ((0 : Int), (6 : Int)) → bget g.board 0 7 = Sq.s Side.b Kind.R) ∧
     (m.endSq = ((0 : Int), (2 : Int)) → bget g.board 0 0 = Sq.s Side.b Kind.R))) ∧
  (m.is_en_passant = true →
    in_bounds m.endSq.1 m.endSq.2 ∧
    bget g.board m.endSq.1 m.endSq.2 = Sq.e ∧
    bget g.board (m.endSq.1 + (if sqIsW m.piece then 1 else -1)) m.endSq.2 =
      (if sqIsW m.piece then Sq.s Side.b Kind.P else Sq.s Side.w Kind.P))

instance (g : GameState) (m : Move) : Decidable (MoveWF g m) := by
  unfold MoveWF; infer_instance

/-- A position on which the legality filter's apply/undo cycle is exactly
reversible: well-formed 8×8 board and every generated move reversible. -/
def StateWF (g : GameState) : Prop :=
  Board8 g.board ∧ ∀ m ∈ generate_pseudo_legal g (toMove g), MoveWF g m

instance (g : GameState) : Decidable (StateWF g) := by
  unfold StateWF; infer_instance

/-- The `GameState()` constructor: `load_fen(START_FEN)` (which succeeds;
the fallback record is never used). -/
def init_state : GameState :=
  (load_fen START_FEN).getD
    ⟨[], true, ⟨true, true, true, true⟩, none, 0, 1, false, false⟩

/-- A loadable position with the white king-side castling right set but no
rook on h1: two bare kings, rights token `K`. -/
def g1cex : GameState :=
  (load_fen "4k3/8/8/8/8/8/8/4K3 w K - 0 1").getD
    ⟨[], true, ⟨true, true, true, true⟩, none, 0, 1, false, false⟩

/-- The king-side castling move the engine generates (and keeps as legal)
from `g1cex`, as it sits in the returned legal-move list. -/
def m1cex : Move :=
  { start := (7, 4), endSq := (7, 6), piece := Sq.s Side.w Kind.K,
    is_castle := true, prev_castling := ⟨true, false, false, false⟩,
    prev_en_passant := none, prev_halfmove := 0, prev_fullmove := 1 }

/-- A position whose queried side (white) has no king on the board. -/
def g5cex : GameState :=
  (load_fen "8/8/8/8/8/8/8/7k w - - 0 1").getD
    ⟨[], true, ⟨true, true, true, true⟩, none, 0, 1, false, false⟩

/-- A castle-ready position: white king e1, rook h1, right `K`. -/
def g7wit : GameState :=
  (load_fen "4k3/8/8/8/8/8/8/4K2R w K - 0 1").getD
    ⟨[], true, ⟨true, true, true, true⟩, none, 0, 1, false, false⟩

/-- The white king-side castling move as generated from `g7wit`. -/
def m7wit : Move :=
  { start := (7, 4), endSq := (7, 6), piece := Sq.s Side.w Kind.K,
    is_castle := true }

/-- The a2-a3-style single push generated first from the start position. -/
def mW : Move := { start := (6, 0), endSq := (5, 0), piece := Sq.s Side.w Kind.P }

/-- The a2-a4 double push generated from the start position. -/
def mW2 : Move := { start := (6, 0), endSq := (4, 0), piece := Sq.s Side.w Kind.P }

/-- A loadable position with a well-formed 8×8 board whose en-passant token
`a9` parses to the out-of-range square (-1, 0), with a white pawn on b8. -/
def gXcex : GameState :=
  (load_fen "1P6/8/8/8/8/8/8/k6K w - a9 0 1").getD
    ⟨[], true, ⟨true, true, true, true⟩, none, 0, 1, false, false⟩

/-- The en-passant move the generator emits from `gXcex`: its destination
row is -1. -/
def mXcex : Move :=
  { start := (0, 1), endSq := (-1, 0), piece := Sq.s Side.w Kind.P,
    captured := some (Sq.s Side.b Kind.P), is_en_passant := true }

theorem getD_set_self (l : List α) (i : Nat) (v d : α) (h : i < l.length) :
    (l.set i v).getD i d = v := by
  simp [List.getD_eq_getElem?_getD, List.getElem?_set_self h]

theorem getD_set_ne (l : List α) {i j : Nat} (v d : α) (h : i ≠ j) :
    (l.set i v).getD j d = l.getD j d := by
  simp [List.getD_eq_getElem?_getD, List.getElem?_set_ne h]

theorem set_getD_self (l : List α) (i : Nat) (d : α) (h : i < l.length) :
    l.set i (l.getD i d) = l := by
  apply List.ext_getElem?
  intro j
  by_cases hj : i = j
  · subst hj
    simp [List.getElem?_set_self h, List.getD_eq_getElem?_getD,
      List.getElem?_eq_getElem h]
  · simp [List.getElem?_set_ne hj]

theorem lgetI_nonneg (l : List α) (i : Int) (d : α) (h : 0 ≤ i) :
    lgetI l i d = l.getD i.toNat d := by
  have h' : ¬i < 0 := by omega
  simp [lgetI, h, h']

theorem lsetI_nonneg (l : List α) (i : Int) (v : α) (h : 0 ≤ i) :
    lsetI l i v = l.set i.toNat v := by
  have h' : ¬i < 0 := by omega
  simp [lsetI, h, h']

theorem bget_nonneg (b : List (List Sq)) (r c : Int) (hr : 0 ≤ r) (hc : 0 ≤ c) :
    bget b r c = (b.getD r.toNat []).getD c.toNat Sq.e := by
  simp [bget, lgetI_nonneg _ _ _ hr, lgetI_nonneg _ _ _ hc]

theorem bset_nonneg (b : List (List Sq)) (r c : Int) (v : Sq) (hr : 0 ≤ r) (hc : 0 ≤ c) :
    bset b r c v = b.set r.toNat ((b.getD r.toNat []).set c.toNat v) := by
  simp [bset, lsetI_nonneg _ _ _ hr, lsetI_nonneg _ _ _ hc, lgetI_nonneg _ _ _ hr]

theorem Board8.row_len {b : List (List Sq)} (h8 : Board8 b) {i : Nat} (hi : i < 8) :
    (b.getD i []).length = 8 := by
  have hb := h8.1
  have hlen : i < b.length := by omega
  rw [List.getD_eq_getElem?_getD, List.getElem?_eq_getElem hlen]
  exact h8.2 _ (List.getElem_mem hlen)

theorem Board8_bset {b : List (List Sq)} (h8 : Board8 b) {r c : Int} (v : Sq)
    (h : in_bounds r c) : Board8 (bset b r c v) := by
  obtain ⟨hr0, hr8, hc0, hc8⟩ := h
  have hb := h8.1
  rw [bset_nonneg b r c v hr0 hc0]
  refine ⟨by simp [hb], ?_⟩
  intro row hrow
  rcases List.mem_or_eq_of_mem_set hrow with h1 | h1
  · exact h8.2 _ h1
  · subst h1
    rw [List.length_set]
    exact h8.row_len (by omega)

theorem bget_bset_self {b : List (List Sq)} (h8 : Board8 b) {r c : Int} (v : Sq)
    (h : in_bounds r c) : bget (bset b r c v) r c = v := by
  obtain ⟨hr0, hr8, hc0, hc8⟩ := h
  have hb := h8.1
  have hrow : (b.getD r.toNat []).length = 8 := h8.row_len (by omega)
  rw [bset_nonneg b r c v hr0 hc0, bget_nonneg _ r c hr0 hc0,
    getD_set_self _ _ _ _ (by omega), getD_set_self _ _ _ _ (by omega)]

theorem bget_bset_ne {b : List (List Sq)} (h8 : Board8 b) {r c r' c' : Int} (v : Sq)
    (h : in_bounds r c) (h' : in_bounds r' c') (hne : r ≠ r' ∨ c ≠ c') :
    bget (bset b r c v) r' c' = bget b r' c' := by
  obtain ⟨hr0, hr8, hc0, hc8⟩ := h
  obtain ⟨hr0', hr8', hc0', hc8'⟩ := h'
  have hb := h8.1
  rw [bset_nonneg b r c v hr0 hc0, bget_nonneg _ r' c' hr0' hc0',
    bget_nonneg b r' c' hr0' hc0']
  by_cases hrr : r = r'
  · subst hrr
    have hcc : c.toNat ≠ c'.toNat := by
      rcases hne with h1 | h1
      · omega
      · omega
    rw [getD_set_self _ _ _ _ (by omega), getD_set_ne _ _ _ hcc]
  · have hrn : r.toNat ≠ r'.toNat := by omega
    rw [getD_set_ne _ _ _ hrn]

theorem bset_bset_self {b : List (List Sq)} (h8 : Board8 b) {r c : Int} (v w : Sq)
    (h : in_bounds r c) : bset (bset b r c v) r c w = bset b r c w := by
  obtain ⟨hr0, hr8, hc0, hc8⟩ := h
  have hb := h8.1
  rw [bset_nonneg b r c v hr0 hc0, bset_nonneg _ r c w hr0 hc0,
    bset_nonneg b r c w hr0 hc0, getD_set_self _ _ _ _ (by omega),
    List.set_set, List.set_set]

theorem bset_comm {b : List (List Sq)} (h8 : Board8 b) {r c r' c' : Int} (v w : Sq)
    (h : in_bounds r c) (h' : in_bounds r' c') (hne : r ≠ r' ∨ c ≠ c') :
    bset (bset b r c v) r' c' w = bset (bset b r' c' w) r c v := by
  obtain ⟨hr0, hr8, hc0, hc8⟩ := h
  obtain ⟨hr0', hr8', hc0', hc8'⟩ := h'
  have hb := h8.1
  by_cases hrr : r = r'
  · subst hrr
    have hcc : c.toNat ≠ c'.toNat := by
      rcases hne with h1 | h1
      · omega
      · omega
    rw [bset_nonneg b r c v hr0 hc0, bset_nonneg _ r c' w hr0 hc0',
      bset_nonneg b r c' w hr0 hc0', bset_nonneg _ r c v hr0 hc0,
      getD_set_self _ _ _ _ (by omega), getD_set_self _ _ _ _ (by omega),
      List.set_set, List.set_set, List.set_comm _ _ _ hcc]
  · have hrn : r.toNat ≠ r'.toNat := by omega
    have hrn' : r'.toNat ≠ r.toNat := by omega
    rw [bset_nonneg b r c v hr0 hc0, bset_nonneg _ r' c' w hr0' hc0',
      bset_nonneg b r' c' w hr0' hc0', bset_nonneg _ r c v hr0 hc0,
      getD_set_ne _ _ _ hrn, getD_set_ne _ _ _ hrn',
      List.set_comm _ _ _ hrn]

theorem bset_bget_self {b : List (List Sq)} (h8 : Board8 b) {r c : Int}
    (h : in_bounds r c) : bset b r c (bget b r c) = b := by
  obtain ⟨hr0, hr8, hc0, hc8⟩ := h
  have hb := h8.1
  have hrow : (b.getD r.toNat []).length = 8 := h8.row_len (by omega)
  rw [bset_nonneg _ r c _ hr0 hc0, bget_nonneg _ r c hr0 hc0,
    set_getD_self _ _ _ (by omega), set_getD_self _ _ _ (by omega)]

theorem fwdD_ne_zero (side : Side) : fwdD side ≠ 0 := by
  cases side <;> simp [fwdD]

theorem pawnMoves_ok {g : GameState} {side : Side} {r c : Int} {m : Move}
    (hq : bget g.board r c = Sq.s side Kind.P) (hin : in_bounds r c)
    (hm : m ∈ pawnMoves g side r c) : GenOK g side m := by
  have hf : fwdD side = -1 ∨ fwdD side = 1 := by cases side <;> simp [fwdD]
  simp only [pawnMoves, List.mem_append] at hm
  rcases hm with (hm | hm) | hm
  · -- forward pushes
    by_cases hF : in_bounds (r + fwdD side) c ∧ bget g.board (r + fwdD side) c = Sq.e
    · rw [if_pos hF] at hm
      rcases List.mem_cons.mp hm with rfl | hm
      · -- single push
        refine ⟨hin, by simpa using hq, ⟨Kind.P, rfl⟩, ?_, ?_, Or.inl ?_⟩
        · simp only [ne_eq, Prod.mk.injEq, not_and]
          intro h1
          exfalso
          have := fwdD_ne_zero side
          omega
        · intro _
          left; rfl
        · exact ⟨rfl, rfl, hF.1, by simp [hF.2]⟩
      · -- double push
        by_cases hD : r = (if side = Side.w then (6 : Int) else 1) ∧
            bget g.board (r + 2 * fwdD side) c = Sq.e
        · rw [if_pos hD] at hm
          rcases List.mem_singleton.mp hm with rfl
          have hr6 : (r = 6 ∧ fwdD side = -1) ∨ (r = 1 ∧ fwdD side = 1) := by
            have hr := hD.1
            cases side
            · exact Or.inl ⟨by simpa using hr, rfl⟩
            · exact Or.inr ⟨by simpa using hr, rfl⟩
          have hin2 : in_bounds (r + 2 * fwdD side) c := by
            obtain ⟨h1, h2, h3, h4⟩ := hin
            rcases hr6 with ⟨hr, hf1⟩ | ⟨hr, hf1⟩ <;> rw [hf1] <;>
              exact ⟨by omega, by omega, by omega, by omega⟩
          refine ⟨hin, by simpa using hq, ⟨Kind.P, rfl⟩, ?_, ?_, Or.inl ?_⟩
          · simp only [ne_eq, Prod.mk.injEq, not_and]
            intro h1
            exfalso
            have := fwdD_ne_zero side
            omega
          · intro _
            right; exact ⟨rfl, rfl⟩
          · exact ⟨rfl, rfl, hin2, by simp [hD.2]⟩
        · rw [if_neg hD] at hm
          simp at hm
    · rw [if_neg hF] at hm
      simp at hm
  · -- diagonal captures
    rw [List.mem_filterMap] at hm
    obtain ⟨dc, hdc, hfm⟩ := hm
    by_cases hB : in_bounds (r + fwdD side) (c + dc)
    · rw [if_pos hB] at hfm
      cases hT : bget g.board (r + fwdD side) (c + dc) with
      | e =>
        simp only [hT] at hfm
        exact Option.noConfusion hfm
      | s ts tk =>
        simp only [hT] at hfm
        by_cases hO : ts = oppS side
        · rw [if_pos hO] at hfm
          obtain rfl := Option.some.inj hfm
          refine ⟨hin, by simpa using hq, ⟨Kind.P, rfl⟩, ?_, ?_, Or.inl ?_⟩
          · simp only [ne_eq, Prod.mk.injEq, not_and]
            intro h1
            exfalso
            have := fwdD_ne_zero side
            omega
          · intro _
            left; rfl
          · exact ⟨rfl, rfl, hB, by simp [hT]⟩
        · rw [if_neg hO] at hfm
          simp at hfm
    · rw [if_neg hB] at hfm
      simp at hfm
  · -- en passant
    cases hep : g.en_passant with
    | none =>
      simp only [hep] at hm
      simp at hm
    | some ep =>
      simp only [hep] at hm
      by_cases hE : r + fwdD side = ep.1 ∧ (c - ep.2).natAbs = 1
      · rw [if_pos hE] at hm
        rcases List.mem_singleton.mp hm with rfl
        refine ⟨hin, by simpa using hq, ⟨Kind.P, rfl⟩, ?_, ?_, Or.inr (Or.inl ?_)⟩
        · simp only [ne_eq, Prod.mk.injEq, not_and]
          intro h1 h2
          have h3 := hE.1
          have h4 := hE.2
          omega
        · intro _
          left
          simp [hE.1.symm]
        · refine ⟨rfl, rfl, rfl, rfl, by simp [hep], by simp [hE.1.symm], ?_⟩
          have h4 := hE.2
          simp only [ne_eq]
          omega
      · rw [if_neg hE] at hm
        simp at hm

theorem knightMoves_ok {g : GameState} {side : Side} {r c : Int} {m : Move}
    (hq : bget g.board r c = Sq.s side Kind.N) (hin : in_bounds r c)
    (hm : m ∈ knightMoves g side r c) : GenOK g side m := by
  rw [knightMoves, List.mem_filterMap] at hm
  obtain ⟨d, hd, hfm⟩ := hm
  have hdnz : d.1 ≠ 0 := by fin_cases hd <;> decide
  by_cases hB : in_bounds (r + d.1) (c + d.2)
  · rw [if_pos hB] at hfm
    cases hT : bget g.board (r + d.1) (c + d.2) with
    | e =>
      simp only [hT] at hfm
      obtain rfl := Option.some.inj hfm
      refine ⟨hin, by simpa using hq, ⟨Kind.N, rfl⟩, ?_, ?_, Or.inl ?_⟩
      · simp only [ne_eq, Prod.mk.injEq, not_and]
        intro h1
        exfalso
        omega
      · intro h
        simp [sqKindIs] at h
      · exact ⟨rfl, rfl, hB, by simp [hT]⟩
    | s ts tk =>
      simp only [hT] at hfm
      by_cases hO : ts = oppS side
      · rw [if_pos hO] at hfm
        obtain rfl := Option.some.inj hfm
        refine ⟨hin, by simpa using hq, ⟨Kind.N, rfl⟩, ?_, ?_, Or.inl ?_⟩
        · simp only [ne_eq, Prod.mk.injEq, not_and]
          intro h1
          exfalso
          omega
        · intro h
          simp [sqKindIs] at h
        · exact ⟨rfl, rfl, hB, by simp [hT]⟩
      · rw [if_neg hO] at hfm
        exact Option.noConfusion hfm
  · rw [if_neg hB] at hfm
    exact Option.noConfusion hfm

theorem rayMoves_ok {g : GameState} {side : Side} {kind : Kind} {r c dr dc : Int}
    (hnz : dr ≠ 0 ∨ dc ≠ 0) (fuel : Nat) :
    ∀ (rr cc : Int) (k : Nat), 1 ≤ k → rr = r + (k : Int) * dr →
      cc = c + (k : Int) * dc → ∀ {m : Move},
      m ∈ rayMoves g side (Sq.s side kind) r c dr dc fuel rr cc →
      RayOut g side kind r c m := by
  induction fuel with
  | zero =>
    intro rr cc k hk hr hc m hm
    simp [rayMoves] at hm
  | succ n ih =>
    intro rr cc k hk hr hc m hm
    rw [rayMoves] at hm
    by_cases hB : in_bounds rr cc
    · rw [if_pos hB] at hm
      have hkz : (k : Int) ≠ 0 := by omega
      have hne : (rr, cc) ≠ (r, c) := by
        simp only [ne_eq, Prod.mk.injEq, not_and]
        intro h1 h2
        rcases hnz with h | h
        · exact h (by
            have : (k : Int) * dr = 0 := by omega
            rcases mul_eq_zero.mp this with h' | h'
            · exact absurd h' hkz
            · exact h')
        · exact h (by
            have : (k : Int) * dc = 0 := by omega
            rcases mul_eq_zero.mp this with h' | h'
            · exact absurd h' hkz
            · exact h')
      cases hT : bget g.board rr cc with
      | e =>
        simp only [hT] at hm
        rcases List.mem_cons.mp hm with rfl | hm
        · exact ⟨rfl, rfl, rfl, rfl, rfl, by simp, hB, hne, by simp [hT]⟩
        · exact ih (rr + dr) (cc + dc) (k + 1) (by omega)
            (by rw [hr]; push_cast; ring) (by rw [hc]; push_cast; ring) hm
      | s ts tk =>
        simp only [hT] at hm
        by_cases hO : ts = oppS side
        · rw [if_pos hO] at hm
          rcases List.mem_singleton.mp hm with rfl
          exact ⟨rfl, rfl, rfl, rfl, rfl, by simp, hB, hne, by simp [hT]⟩
        · rw [if_neg hO] at hm
          simp at hm
    · rw [if_neg hB] at hm
      simp at hm

theorem slideMoves_ok {g : GameState} {side : Side} {kind : Kind} {r c : Int} {m : Move}
    (hq : bget g.board r c = Sq.s side kind) (hin : in_bounds r c)
    (hK : kind = Kind.B ∨ kind = Kind.R ∨ kind = Kind.Q)
    (hm : m ∈ slideMoves g side kind r c) : GenOK g side m := by
  simp only [slideMoves, List.mem_flatMap] at hm
  obtain ⟨d, hd, hm⟩ := hm
  have hdnz : d.1 ≠ 0 ∨ d.2 ≠ 0 := by
    have hd' : d ∈ diagDirs ∨ d ∈ orthoDirs := by
      rcases List.mem_append.mp hd with h | h
      · split at h
        · exact Or.inl h
        · simp at h
      · split at h
        · exact Or.inr h
        · simp at h
    rcases hd' with h | h <;> fin_cases h <;> decide
  have hray := rayMoves_ok hdnz 16 (r + d.1) (c + d.2) 1 le_rfl
    (by push_cast; ring) (by push_cast; ring) hm
  obtain ⟨hs, hp, hic, hie, hpr, -, hinE, hneq, hcap⟩ := hray
  refine ⟨by rw [hs]; exact hin, by rw [hs, hp]; exact hq, ⟨kind, hp⟩, ?_, ?_,
    Or.inl ?_⟩
  · rw [hs]
    exact fun h => hneq h.symm
  · intro h
    rw [hp] at h
    rcases hK with rfl | rfl | rfl <;> simp [sqKindIs] at h
  · exact ⟨hic, hie, hinE, hcap⟩

theorem kingMoves_ok {g : GameState} {side : Side} {r c : Int} {m : Move}
    (hq : bget g.board r c = Sq.s side Kind.K) (hin : in_bounds r c)
    (hm : m ∈ kingMoves g side r c) : GenOK g side m := by
  simp only [kingMoves, List.mem_append] at hm
  rcases hm with hm | hm | hm
  · -- the eight adjacent squares
    rw [List.mem_filterMap] at hm
    obtain ⟨d, hd, hfm⟩ := hm
    have hdnz : ¬(d.1 = 0 ∧ d.2 = 0) := by fin_cases hd <;> decide
    by_cases hB : in_bounds (r + d.1) (c + d.2)
    · rw [if_pos hB] at hfm
      cases hT : bget g.board (r + d.1) (c + d.2) with
      | e =>
        simp only [hT] at hfm
        obtain rfl := Option.some.inj hfm
        refine ⟨hin, by simpa using hq, ⟨Kind.K, rfl⟩, ?_, ?_, Or.inl ?_⟩
        · simp only [ne_eq, Prod.mk.injEq, not_and]
          intro h1 h2
          exact hdnz ⟨by omega, by omega⟩
        · intro h
          simp [sqKindIs] at h
        · exact ⟨rfl, rfl, hB, by simp [hT]⟩
      | s ts tk =>
        simp only [hT] at hfm
        by_cases hO : ts = oppS side
        · rw [if_pos hO] at hfm
          obtain rfl := Option.some.inj hfm
          refine ⟨hin, by simpa using hq, ⟨Kind.K, rfl⟩, ?_, ?_, Or.inl ?_⟩
          · simp only [ne_eq, Prod.mk.injEq, not_and]
            intro h1 h2
            exact hdnz ⟨by omega, by omega⟩
          · intro h
            simp [sqKindIs] at h
          · exact ⟨rfl, rfl, hB, by simp [hT]⟩
        · rw [if_neg hO] at hfm
          exact Option.noConfusion hfm
    · rw [if_neg hB] at hfm
      exact Option.noConfusion hfm
  · -- white castling moves
    split at hm
    case isTrue hw =>
      obtain ⟨hside, hr7, hc4⟩ := hw
      subst hside hr7 hc4
      rcases List.mem_append.mp hm with hm1 | hm1
      · split at hm1
        case isTrue hg =>
          rcases List.mem_singleton.mp hm1 with rfl
          refine ⟨hin, by simpa using hq, ⟨Kind.K, rfl⟩, by decide, ?_,
            Or.inr (Or.inr ?_)⟩
          · intro h
            simp [sqKindIs] at h
          · refine ⟨rfl, rfl, rfl, rfl, rfl, Or.inl ⟨rfl, rfl, Or.inl ?_⟩⟩
            simpa [oppS] using hg
        case isFalse => simp at hm1
      · split at hm1
        case isTrue hg =>
          rcases List.mem_singleton.mp hm1 with rfl
          refine ⟨hin, by simpa using hq, ⟨Kind.K, rfl⟩, by decide, ?_,
            Or.inr (Or.inr ?_)⟩
          · intro h
            simp [sqKindIs] at h
          · refine ⟨rfl, rfl, rfl, rfl, rfl, Or.inl ⟨rfl, rfl, Or.inr ?_⟩⟩
            simpa [oppS] using hg
        case isFalse => simp at hm1
    case isFalse => simp at hm
  · -- black castling moves
    split at hm
    case isTrue hw =>
      obtain ⟨hside, hr0, hc4⟩ := hw
      subst hside hr0 hc4
      rcases List.mem_append.mp hm with hm1 | hm1
      · split at hm1
        case isTrue hg =>
          rcases List.mem_singleton.mp hm1 with rfl
          refine ⟨hin, by simpa using hq, ⟨Kind.K, rfl⟩, by decide, ?_,
            Or.inr (Or.inr ?_)⟩
          · intro h
            simp [sqKindIs] at h
          · refine ⟨rfl, rfl, rfl, rfl, rfl, Or.inr ⟨rfl, rfl, Or.inl ?_⟩⟩
            simpa [oppS] using hg
        case isFalse => simp at hm1
      · split at hm1
        case isTrue hg =>
          rcases List.mem_singleton.mp hm1 with rfl
          refine ⟨hin, by simpa using hq, ⟨Kind.K, rfl⟩, by decide, ?_,
            Or.inr (Or.inr ?_)⟩
          · intro h
            simp [sqKindIs] at h
          · refine ⟨rfl, rfl, rfl, rfl, rfl, Or.inr ⟨rfl, rfl, Or.inr ?_⟩⟩
            simpa [oppS] using hg
        case isFalse => simp at hm1
    case isFalse => simp at hm

theorem squareMoves_ok {g : GameState} {side : Side} {r c : Int} {m : Move}
    (hin : in_bounds r c) (hm : m ∈ squareMoves g side r c) : GenOK g side m := by
  rw [squareMoves] at hm
  cases hq : bget g.board r c with
  | e =>
    simp only [hq] at hm
    simp at hm
  | s ps kind =>
    simp only [hq] at hm
    by_cases hps : ps = side
    · rw [if_pos hps] at hm
      subst hps
      cases kind with
      | P => exact pawnMoves_ok hq hin hm
      | N => exact knightMoves_ok hq hin hm
      | B => exact slideMoves_ok hq hin (by simp) hm
      | R => exact slideMoves_ok hq hin (by simp) hm
      | Q => exact slideMoves_ok hq hin (by simp) hm
      | K => exact kingMoves_ok hq hin hm
    · rw [if_neg hps] at hm
      simp at hm

theorem generate_pseudo_legal_ok {g : GameState} {side : Side} {m : Move}
    (hm : m ∈ generate_pseudo_legal g side) : GenOK g side m := by
  simp only [generate_pseudo_legal, List.mem_flatMap, List.mem_range] at hm
  obtain ⟨r, hr, c, hc, hm⟩ := hm
  exact squareMoves_ok ⟨by omega, by omega, by omega, by omega⟩ hm

theorem normal_board_restore {b : List (List Sq)} (h8 : Board8 b) {sr sc er ec : Int}
    (hs : in_bounds sr sc) (he : in_bounds er ec) (hne : sr ≠ er ∨ sc ≠ ec) (P : Sq) :
    bset (bset (bset (bset b er ec P) sr sc Sq.e) sr sc (bget b sr sc)) er ec
      (bget b er ec) = b := by
  have h8a : Board8 (bset b er ec P) := Board8_bset h8 _ he
  rw [bset_bset_self h8a _ _ hs]
  have hval : bget b sr sc = bget (bset b er ec P) sr sc :=
    (bget_bset_ne h8 _ he hs (hne.imp Ne.symm Ne.symm)).symm
  rw [hval, bset_bget_self h8a hs, bset_bset_self h8 _ _ he, bset_bget_self h8 he]

theorem promo_board_eq {b : List (List Sq)} (h8 : Board8 b) {sr sc er ec : Int}
    (hs : in_bounds sr sc) (he : in_bounds er ec) (hne : sr ≠ er ∨ sc ≠ ec)
    (piece pq : Sq) :
    bset (bset (bset b er ec piece) sr sc Sq.e) er ec pq =
      bset (bset b er ec pq) sr sc Sq.e := by
  rw [bset_comm (Board8_bset h8 _ he) _ _ hs he hne, bset_bset_self h8 _ _ he]

theorem bset_eq_of_bget {b : List (List Sq)} (h8 : Board8 b) {r c : Int}
    (h : in_bounds r c) {v : Sq} (hv : bget b r c = v) : bset b r c v = b := by
  rw [← hv]
  exact bset_bget_self h8 h

theorem ep_board_restore {b : List (List Sq)} (h8 : Board8 b) {sr sc er ec : Int}
    (hs : in_bounds sr sc) (he : in_bounds er ec) (hrne : sr ≠ er) (hcne : sc ≠ ec)
    (hbe : bget b er ec = Sq.e) {pw mp : Sq} (hpw : bget b sr ec = pw)
    (hmp : bget b sr sc = mp) :
    bset (bset (bset (bset (bset (bset b er ec mp) sr sc Sq.e) sr ec Sq.e) sr sc mp)
      er ec Sq.e) sr ec pw = b := by
  have hc : in_bounds sr ec := ⟨hs.1, hs.2.1, he.2.2.1, he.2.2.2⟩
  have h1 : Board8 (bset b er ec mp) := Board8_bset h8 _ he
  have h2 : Board8 (bset (bset b er ec mp) sr sc Sq.e) := Board8_bset h1 _ hs
  rw [bset_comm h2 _ _ hc hs (Or.inr (Ne.symm hcne)), bset_bset_self h1 _ _ hs,
    bset_eq_of_bget h1 hs
      (by rw [bget_bset_ne h8 _ he hs (Or.inl (Ne.symm hrne))]; exact hmp),
    bset_comm h1 _ _ hc he (Or.inl hrne), bset_bset_self h8 _ _ he,
    bset_eq_of_bget h8 he hbe, bset_bset_self h8 _ _ hc,
    bset_eq_of_bget h8 hc hpw]

theorem castle_board_restore {b : List (List Sq)} (h8 : Board8 b) {row kc ec rf rt : Int}
    (hK : in_bounds row kc) (hE : in_bounds row ec) (hF : in_bounds row rf)
    (hT : in_bounds row rt) (hke : kc ≠ ec) (hkf : kc ≠ rf) (hkt : kc ≠ rt)
    (hef : ec ≠ rf) (het : ec ≠ rt) (hft : rf ≠ rt) {rook mp : Sq}
    (hbe : bget b row ec = Sq.e) (hbt : bget b row rt = Sq.e)
    (hbf : bget b row rf = rook) (hbk : bget b row kc = mp) :
    bset (bset (bset (bset (bset (bset (bset (bset b row ec mp) row kc Sq.e) row rt
      rook) row rf Sq.e) row rf rook) row rt Sq.e) row kc mp) row ec Sq.e = b := by
  have h1 : Board8 (bset b row ec mp) := Board8_bset h8 _ hE
  have h2 : Board8 (bset (bset b row ec mp) row kc Sq.e) := Board8_bset h1 _ hK
  have h3 : Board8 (bset (bset (bset b row ec mp) row kc Sq.e) row rt rook) :=
    Board8_bset h2 _ hT
  rw [bset_bset_self h3 _ _ hF,
    bset_eq_of_bget h3 hF
      (by rw [bget_bset_ne h2 _ hT hF (Or.inr (Ne.symm hft)),
            bget_bset_ne h1 _ hK hF (Or.inr hkf),
            bget_bset_ne h8 _ hE hF (Or.inr hef)]
          exact hbf),
    bset_bset_self h2 _ _ hT,
    bset_eq_of_bget h2 hT
      (by rw [bget_bset_ne h1 _ hK hT (Or.inr hkt),
            bget_bset_ne h8 _ hE hT (Or.inr het)]
          exact hbt),
    bset_bset_self h1 _ _ hK,
    bset_eq_of_bget h1 hK
      (by rw [bget_bset_ne h8 _ hE hK (Or.inr (Ne.symm hke))]
          exact hbk),
    bset_bset_self h8 _ _ hE, bset_eq_of_bget h8 hE hbe]

theorem make_undo_roundtrip {g : GameState} {side : Side} {m : Move}
    (h8 : Board8 g.board) (hm : m ∈ generate_pseudo_legal g side) (hwf : MoveWF g m) :
    undo_move (make_move g m).1 (make_move g m).2 =
      { g with checkmate := false, stalemate := false } := by
  obtain ⟨hinS, hbp, ⟨k, hpk⟩, hne, -, hshape⟩ := generate_pseudo_legal_ok hm
  have hf2 : fwdD side = -1 ∨ fwdD side = 1 := by cases side <;> simp [fwdD]
  rcases hshape with ⟨hic, hie, hinE, hcap⟩ | hE | hC
  · -- ordinary move: the two writes are inverted in place
    have hneRC : m.start.1 ≠ m.endSq.1 ∨ m.start.2 ≠ m.endSq.2 := by
      by_contra hcon
      push_neg at hcon
      exact hne (Prod.ext_iff.mpr hcon)
    cases hT : bget g.board m.endSq.1 m.endSq.2 with
    | e =>
      simp only [hT] at hcap
      cases hpr : m.promotion with
      | none =>
        have hres := normal_board_restore h8 hinS hinE hneRC
          (bget g.board m.start.1 m.start.2)
        rw [hbp, hT] at hres
        simp [make_move, undo_move, hie, hic, hpr, hcap, hbp, GameState.mk.injEq,
          hres]
      | some pk =>
        have hres := normal_board_restore h8 hinS hinE hneRC (Sq.s side pk)
        rw [hbp, hpk, hT] at hres
        have hpe := promo_board_eq h8 hinS hinE hneRC (Sq.s side k) (Sq.s side pk)
        simp [make_move, undo_move, hie, hic, hpr, hcap, hbp, hpk,
          GameState.mk.injEq, hpe, hres]
    | s ts tk =>
      simp only [hT] at hcap
      cases hpr : m.promotion with
      | none =>
        have hres := normal_board_restore h8 hinS hinE hneRC
          (bget g.board m.start.1 m.start.2)
        rw [hbp, hT] at hres
        simp [make_move, undo_move, hie, hic, hpr, hcap, hbp, GameState.mk.injEq,
          hres]
      | some pk =>
        have hres := normal_board_restore h8 hinS hinE hneRC (Sq.s side pk)
        rw [hbp, hpk, hT] at hres
        have hpe := promo_board_eq h8 hinS hinE hneRC (Sq.s side k) (Sq.s side pk)
        simp [make_move, undo_move, hie, hic, hpr, hcap, hbp, hpk,
          GameState.mk.injEq, hpe, hres]
  · -- en passant: three cells are touched and restored
    obtain ⟨hie1, hic1, hprE, hpP, hepT, herow, hecol⟩ := hE
    obtain ⟨hinE, hbend, hbcap⟩ := hwf.2 hie1
    have hsw : (if sqIsW m.piece = true then (1 : Int) else -1) = -fwdD side := by
      rw [hpP]; cases side <;> simp [sqIsW, fwdD]
    have hcapr : m.endSq.1 + (if sqIsW m.piece = true then (1 : Int) else -1) =
        m.start.1 := by
      rw [hsw, herow]; ring
    have hrne : m.start.1 ≠ m.endSq.1 := by
      rcases hf2 with h | h <;> rw [herow, h] <;> omega
    have hcne : m.start.2 ≠ m.endSq.2 := Ne.symm hecol
    rw [hcapr] at hbcap
    have hres := ep_board_restore h8 hinS hinE hrne hcne hbend hbcap hbp
    simp [make_move, undo_move, hie1, hic1, hprE, hbp, hcapr, GameState.mk.injEq,
      hres]
  · -- castling: four cells are touched and restored
    obtain ⟨hic1, hie1, hprC, hcapC, hpK, hspec⟩ := hC
    have hrook := hwf.1 hic1
    rcases hspec with ⟨rfl, hst, hks | hqs⟩ | ⟨rfl, hst, hks | hqs⟩
    · obtain ⟨hend, -, hb5, hb6, -, -, -⟩ := hks
      rw [hst] at hbp
      have hrook' := hrook.1 hend
      have hres := @castle_board_restore g.board h8 7 4 6 7 5
        (by decide) (by decide) (by decide) (by decide) (by decide) (by decide)
        (by decide) (by decide) (by decide) (by decide) _ _
        hb6 hb5 hrook' hbp
      simp [make_move, undo_move, hic1, hie1, hprC, hcapC, hst, hend, hbp,
        GameState.mk.injEq, hres]
    · obtain ⟨hend, -, hb1, hb2, hb3, -, -, -⟩ := hqs
      rw [hst] at hbp
      have hrook' := hrook.2.1 hend
      have hres := @castle_board_restore g.board h8 7 4 2 0 3
        (by decide) (by decide) (by decide) (by decide) (by decide) (by decide)
        (by decide) (by decide) (by decide) (by decide) _ _
        hb2 hb3 hrook' hbp
      simp [make_move, undo_move, hic1, hie1, hprC, hcapC, hst, hend, hbp,
        GameState.mk.injEq, hres]
    · obtain ⟨hend, -, hb5, hb6, -, -, -⟩ := hks
      rw [hst] at hbp
      have hrook' := hrook.2.2.1 hend
      have hres := @castle_board_restore g.board h8 0 4 6 7 5
        (by decide) (by decide) (by decide) (by decide) (by decide) (by decide)
        (by decide) (by decide) (by decide) (by decide) _ _
        hb6 hb5 hrook' hbp
      simp [make_move, undo_move, hic1, hie1, hprC, hcapC, hst, hend, hbp,
        GameState.mk.injEq, hres]
    · obtain ⟨hend, -, hb1, hb2, hb3, -, -, -⟩ := hqs
      rw [hst] at hbp
      have hrook' := hrook.2.2.2 hend
      have hres := @castle_board_restore g.board h8 0 4 2 0 3
        (by decide) (by decide) (by decide) (by decide) (by decide) (by decide)
        (by decide) (by decide) (by decide) (by decide) _ _
        hb2 hb3 hrook' hbp
      simp [make_move, undo_move, hic1, hie1, hprC, hcapC, hst, hend, hbp,
        GameState.mk.injEq, hres]

theorem rayAtt_congr {g g' : GameState} (h : g.board = g'.board)
    (att : Side) (kinds : List Kind) (dr dc : Int) :
    ∀ (n : Nat) (rr cc : Int),
      rayAtt g att kinds dr dc n rr cc = rayAtt g' att kinds dr dc n rr cc := by
  intro n
  induction n with
  | zero => intro rr cc; rfl
  | succ k ih =>
    intro rr cc
    simp only [rayAtt, h]
    split
    · cases bget g'.board rr cc <;> simp [ih]
    · rfl

theorem square_attacked_by_congr {g g' : GameState} (h : g.board = g'.board)
    (r c : Int) (att : Side) :
    square_attacked_by g r c att = square_attacked_by g' r c att := by
  simp only [square_attacked_by, h, rayAtt_congr h]

theorem locate_king_congr {g g' : GameState} (h : g.board = g'.board) (side : Side) :
    locate_king g side = locate_king g' side := by
  simp only [locate_king, h]

theorem in_check_congr {g g' : GameState} (h : g.board = g'.board) (b : Bool) :
    in_check g b = in_check g' b := by
  simp only [in_check, locate_king_congr h, square_attacked_by_congr h]

theorem in_check_flags (s : GameState) (x y b : Bool) :
    in_check { s with checkmate := x, stalemate := y } b = in_check s b :=
  in_check_congr rfl b

theorem undo_move_flags (s : GameState) (x y : Bool) (mv : Move) :
    undo_move { s with checkmate := x, stalemate := y } mv = undo_move s mv := rfl

theorem make_move_flags (s : GameState) (x y : Bool) (mv : Move) :
    make_move { s with checkmate := x, stalemate := y } mv =
      ({ (make_move s mv).1 with checkmate := x, stalemate := y },
        (make_move s mv).2) := rfl

theorem wtm_flags (s : GameState) (x y : Bool) :
    ({ s with checkmate := x, stalemate := y } : GameState).white_to_move =
      s.white_to_move := rfl

theorem make_wtm (s : GameState) (mv : Move) :
    (make_move s mv).1.white_to_move = !s.white_to_move := rfl

theorem legalFilterLoop_eq (g : GameState) (ms : List Move)
    (hms : ∀ m ∈ ms,
      undo_move (make_move g m).1 (make_move g m).2 =
        { g with checkmate := false, stalemate := false }) (x y : Bool) :
    legalFilterLoop { g with checkmate := x, stalemate := y } ms =
      (ms.filterMap (fun m =>
         if in_check (make_move g m).1 g.white_to_move = false then
           some (make_move g m).2
         else none),
       if ms.isEmpty then { g with checkmate := x, stalemate := y }
       else { g with checkmate := false, stalemate := false }) := by
  induction ms generalizing x y with
  | nil => simp [legalFilterLoop]
  | cons mv rest ih =>
    have hrest : ∀ m ∈ rest,
        undo_move (make_move g m).1 (make_move g m).2 =
          { g with checkmate := false, stalemate := false } :=
      fun m hm => hms m (List.mem_cons_of_mem _ hm)
    have hundo := hms mv (List.mem_cons_self mv rest)
    simp only [legalFilterLoop, make_move_flags, in_check_flags, wtm_flags,
      undo_move_flags, hundo]
    simp only [ih hrest false false, make_wtm, Bool.not_not, List.filterMap_cons,
      List.isEmpty_cons, ite_self]
    by_cases hc : in_check (make_move g mv).1 g.white_to_move = false
    · simp [hc]
    · have hc' : in_check (make_move g mv).1 g.white_to_move = true := by
        revert hc
        cases in_check (make_move g mv).1 g.white_to_move <;> simp
      simp [hc']

theorem legalLoop_from_g (g : GameState) (h : StateWF g) :
    legalFilterLoop g (generate_pseudo_legal g (toMove g)) =
      ((generate_pseudo_legal g (toMove g)).filterMap (fun m =>
         if in_check (make_move g m).1 g.white_to_move = false then
           some (make_move g m).2
         else none),
       if (generate_pseudo_legal g (toMove g)).isEmpty then g
       else { g with checkmate := false, stalemate := false }) := by
  have hms : ∀ m ∈ generate_pseudo_legal g (toMove g),
      undo_move (make_move g m).1 (make_move g m).2 =
        { g with checkmate := false, stalemate := false } :=
    fun m hm => make_undo_roundtrip h.1 hm (h.2 m hm)
  have heta : ({ g with checkmate := g.checkmate, stalemate := g.stalemate } :
      GameState) = g := rfl
  have hloop := legalFilterLoop_eq g (generate_pseudo_legal g (toMove g)) hms
    g.checkmate g.stalemate
  rw [heta] at hloop
  exact hloop

theorem get_all_legal_moves_eq (g : GameState) (h : StateWF g) :
    get_all_legal_moves g =
      ((generate_pseudo_legal g (toMove g)).filterMap (fun m =>
         if in_check (make_move g m).1 g.white_to_move = false then
           some (make_move g m).2
         else none),
       if (generate_pseudo_legal g (toMove g)).filterMap (fun m =>
           if in_check (make_move g m).1 g.white_to_move = false then
             some (make_move g m).2
           else none) = [] then
         (if in_check g g.white_to_move = true then
            { (if (generate_pseudo_legal g (toMove g)).isEmpty then g
               else { g with checkmate := false, stalemate := false }) with
              checkmate := true }
          else
            { (if (generate_pseudo_legal g (toMove g)).isEmpty then g
               else { g with checkmate := false, stalemate := false }) with
              stalemate := true })
       else
         { (if (generate_pseudo_legal g (toMove g)).isEmpty then g
            else { g with checkmate := false, stalemate := false }) with
           checkmate := false, stalemate := false }) := by
  have hSb : (if (generate_pseudo_legal g (toMove g)).isEmpty then g
      else { g with checkmate := false, stalemate := false }).board = g.board := by
    split <;> rfl
  have hSw : (if (generate_pseudo_legal g (toMove g)).isEmpty then g
      else { g with checkmate := false, stalemate := false }).white_to_move =
      g.white_to_move := by
    split <;> rfl
  have hSin : in_check
      (if (generate_pseudo_legal g (toMove g)).isEmpty then g
       else { g with checkmate := false, stalemate := false })
      ((if (generate_pseudo_legal g (toMove g)).isEmpty then g
        else { g with checkmate := false, stalemate := false }).white_to_move) =
      in_check g g.white_to_move := by
    rw [in_check_congr hSb, hSw]
  simp only [get_all_legal_moves, legalLoop_from_g g h, hSin]
  split
  · split <;> rfl
  · rfl

/-- Claim C6: for every engine-generated move, `make_move` zeroes the
halfmove clock exactly when the moving piece is a pawn or the move captures
a piece, and otherwise increments it; the fullmove number is incremented
exactly when the side that moved is black. -/
theorem halfmove_fullmove_update (g : GameState) (m : Move)
    (hm : m ∈ generate_pseudo_legal g (toMove g)) :
    (make_move g m).1.halfmove_clock =
      (if sqKindIs m.piece Kind.P = true ∨ m.captured ≠ none then 0
       else g.halfmove_clock + 1) ∧
    (make_move g m).1.fullmove_number =
      g.fullmove_number + (if g.white_to_move then 0 else 1) := by
  obtain ⟨-, hbp, -, -, -, hshape⟩ := generate_pseudo_legal_ok hm
  constructor
  · have hhm : (make_move g m).1.halfmove_clock =
        (if sqKindIs (bget g.board m.start.1 m.start.2) Kind.P = true ∨
            bget g.board m.endSq.1 m.endSq.2 ≠ Sq.e then 0
         else g.halfmove_clock + 1) := rfl
    rw [hhm, hbp]
    rcases hshape with ⟨-, -, -, hcap⟩ | ⟨-, -, -, hpP, -, -, -⟩ | hC
    · cases hT : bget g.board m.endSq.1 m.endSq.2 with
      | e =>
        simp only [hT] at hcap
        simp [hT, hcap]
      | s ts tk =>
        simp only [hT] at hcap
        simp [hT, hcap]
    · simp [hpP, sqKindIs]
    · obtain ⟨-, -, -, hcapC, hpK, hspec⟩ := hC
      have hT : bget g.board m.endSq.1 m.endSq.2 = Sq.e := by
        rcases hspec with ⟨-, -, ⟨hend, -, -, hb6, -, -, -⟩ |
            ⟨hend, -, -, hb2, -, -, -, -⟩⟩ |
          ⟨-, -, ⟨hend, -, -, hb6, -, -, -⟩ | ⟨hend, -, -, hb2, -, -, -, -⟩⟩ <;>
          rw [hend] <;> assumption
      simp [hT, hpK, hcapC, sqKindIs]
  · have hfm : (make_move g m).1.fullmove_number =
        (if g.white_to_move then g.fullmove_number else g.fullmove_number + 1) :=
      rfl
    rw [hfm]
    cases g.white_to_move <;> simp

/-- Claim C8: after `make_move` of an engine-generated move, the en-passant
target equals the square midway between start and end (same column) exactly
when the move was a pawn double-step; every other move clears it. -/
theorem en_passant_update (g : GameState) (m : Move)
    (hm : m ∈ generate_pseudo_legal g (toMove g)) :
    (sqKindIs m.piece Kind.P = true ∧ (m.endSq.1 - m.start.1).natAbs = 2 →
       m.endSq.2 = m.start.2 ∧
       (make_move g m).1.en_passant =
         some ((m.start.1 + m.endSq.1).fdiv 2, m.start.2)) ∧
    (¬(sqKindIs m.piece Kind.P = true ∧ (m.endSq.1 - m.start.1).natAbs = 2) →
       (make_move g m).1.en_passant = none) := by
  obtain ⟨-, hbp, -, -, hpawn, -⟩ := generate_pseudo_legal_ok hm
  have hf2 : fwdD (toMove g) = -1 ∨ fwdD (toMove g) = 1 := by
    cases toMove g <;> simp [fwdD]
  have hep : (make_move g m).1.en_passant =
      (if sqKindIs (bget g.board m.start.1 m.start.2) Kind.P = true ∧
          (m.endSq.1 - m.start.1).natAbs = 2 then
        some ((m.start.1 + m.endSq.1).fdiv 2, m.endSq.2)
       else none) := rfl
  rw [hep, hbp]
  constructor
  · intro hcond
    have hcol : m.endSq.2 = m.start.2 := by
      rcases hpawn hcond.1 with h1 | h1
      · exfalso
        have h2 := hcond.2
        rcases hf2 with hf | hf <;> rw [hf] at h1 <;> omega
      · exact h1.2
    rw [if_pos hcond, hcol]
    exact ⟨rfl, rfl⟩
  · intro hcond
    rw [if_neg hcond]

/-- Claim C7: the generator emits a castling move only under the guard
conditions recorded in `CastleSpec`: the matching unrevoked right, empty
squares strictly between king and rook, and the king's start, pass-through
and destination squares unattacked by the opponent. -/
theorem castle_generation_conditions (g : GameState) (side : Side) (m : Move)
    (hm : m ∈ generate_pseudo_legal g side) (hc : m.is_castle = true) :
    CastleSpec g side m := by
  obtain ⟨-, -, -, -, -, hshape⟩ := generate_pseudo_legal_ok hm
  rcases hshape with ⟨hic, -, -, -⟩ | ⟨-, hic, -, -, -, -, -⟩ | hC
  · rw [hc] at hic
    exact Bool.noConfusion hic
  · rw [hc] at hic
    exact Bool.noConfusion hic
  · exact hC.2.2.2.2.2

/-- Claim C7 witness: the castling move generated from `g7wit` satisfies the
guard conditions. -/
theorem castle_generation_conditions_witness :
    (m7wit ∈ generate_pseudo_legal g7wit Side.w ∧ m7wit.is_castle = true) ∧
    CastleSpec g7wit Side.w m7wit :=
  ⟨by decide, castle_generation_conditions g7wit Side.w m7wit (by decide) (by decide)⟩

/-- Claim C10 (amended): provided the recorded en-passant target (when set)
is itself in bounds, every generated move's start and end coordinates are in
0..7. -/
theorem gen_moves_in_bounds (g : GameState) (side : Side) (m : Move)
    (hep : ∀ p, g.en_passant = some p → in_bounds p.1 p.2)
    (hm : m ∈ generate_pseudo_legal g side) :
    in_bounds m.start.1 m.start.2 ∧ in_bounds m.endSq.1 m.endSq.2 := by
  obtain ⟨hinS, -, -, -, -, hshape⟩ := generate_pseudo_legal_ok hm
  refine ⟨hinS, ?_⟩
  rcases hshape with ⟨-, -, hinE, -⟩ | ⟨-, -, -, -, hepT, -, -⟩ | hC
  · exact hinE
  · exact hep _ hepT
  · rcases hC.2.2.2.2.2 with ⟨-, -, hend | hend⟩ | ⟨-, -, hend | hend⟩ <;>
      rw [hend.1] <;> decide

/-- Claim C10 counterexample: a well-formed 8×8 board loaded with en-passant
token `a9` makes the generator emit a move whose destination row is -1. -/
theorem gen_bounds_counterexample :
    Board8 gXcex.board ∧
    mXcex ∈ generate_pseudo_legal gXcex Side.w ∧
    ¬in_bounds mXcex.endSq.1 mXcex.endSq.2 := by decide

/-- Claim C10 witness: from the start position (whose en-passant target is
empty) every generated move is in bounds; instantiated on the first pawn
push. -/
theorem gen_moves_in_bounds_witness :
    (mW ∈ generate_pseudo_legal init_state Side.w) ∧
    in_bounds mW.start.1 mW.start.2 ∧ in_bounds mW.endSq.1 mW.endSq.2 :=
  ⟨by decide,
    gen_moves_in_bounds init_state Side.w mW
      (by
        intro p hp
        rw [show init_state.en_passant = none from by decide] at hp
        exact Option.noConfusion hp)
      (by decide)⟩

/-- Claim C1 (amended): on a well-formed 8×8 board, applying `make_move` and
then `undo_move` to any move produced by the engine's own generation
restores the observable state (board, side to move, castling rights,
en-passant target, both counters), provided the position is consistent with
the move: a castling move's rook is on its home corner and an en-passant
move's target square is an in-bounds empty square with the captured pawn
directly behind it. -/
theorem make_undo_observational (g : GameState) (m : Move)
    (h8 : Board8 g.board) (hm : m ∈ generate_pseudo_legal g (toMove g))
    (hwf : MoveWF g m) :
    obs (undo_move (make_move g m).1 (make_move g m).2) = obs g := by
  rw [make_undo_roundtrip h8 hm hwf]
  rfl

/-- Claim C1 witness: make/undo of the first pawn push restores the start
position's observables. -/
theorem make_undo_observational_witness :
    (Board8 init_state.board ∧ mW ∈ generate_pseudo_legal init_state
        (toMove init_state) ∧ MoveWF init_state mW) ∧
    obs (undo_move (make_move init_state mW).1 (make_move init_state mW).2) =
      obs init_state :=
  ⟨by decide,
    make_undo_observational init_state mW (by decide) (by decide) (by decide)⟩

/-- Claim C1 counterexample: from a loadable position with the white
king-side right set but no rook on h1, the engine generates and keeps the
castling move; make then undo materializes a rook on h1, so the observable
state is not restored. -/
theorem make_undo_counterexample :
    (load_fen "4k3/8/8/8/8/8/8/4K3 w K - 0 1").isSome = true ∧
    m1cex ∈ (get_all_legal_moves g1cex).1 ∧
    obs (undo_move (make_move g1cex m1cex).1 (make_move g1cex m1cex).2) ≠
      obs g1cex := by decide

/-- Claim C2: on a position whose generated moves are all exactly
reversible, the returned legal-move list is exactly the pseudo-legal moves
of the side to move whose application leaves that side's king unattacked
(each kept move carrying the snapshot its application wrote into it). -/
theorem legal_moves_filter_spec (g : GameState) (h : StateWF g) :
    (get_all_legal_moves g).1 =
      (generate_pseudo_legal g (toMove g)).filterMap (fun m =>
        if in_check (make_move g m).1 g.white_to_move = false then
          some (make_move g m).2
        else none) := by
  rw [get_all_legal_moves_eq g h]

/-- Claim C2 witness: the filter characterization instantiated at the start
position. -/
theorem legal_moves_filter_spec_witness :
    StateWF init_state ∧
    (get_all_legal_moves init_state).1 =
      (generate_pseudo_legal init_state (toMove init_state)).filterMap (fun m =>
        if in_check (make_move init_state m).1 init_state.white_to_move = false
        then some (make_move init_state m).2
        else none) :=
  ⟨by decide, legal_moves_filter_spec init_state (by decide)⟩

/-- Claim C3: the position loaded from the standard starting configuration
string has exactly 20 legal moves. -/
theorem start_position_twenty_moves :
    (load_fen START_FEN).map (fun g => (get_all_legal_moves g).1.length) =
      some 20 := by decide

/-- Claim C4 (amended): the side-to-move token never causes `load_fen` to
fail; loading succeeds or fails independently of it, and the constructed
Position has white to move exactly when the token is `w` (any other token,
recognized or not, is treated as black to move). -/
theorem load_parts_turn_spec (bp t ca en h f : List Char) :
    load_parts bp t ca en h f =
      (load_parts bp ['w'] ca en h f).map
        (fun g => { g with white_to_move := t == ['w'] }) := by
  simp only [load_parts]
  cases (splitOnChar '/' bp).mapM parseRow with
  | none => rfl
  | some bd =>
    by_cases hen : en = ['-']
    · simp only [if_pos hen]
      cases parseInt h with
      | none => rfl
      | some hv =>
        cases parseInt f with
        | none => rfl
        | some fv => rfl
    · simp only [if_neg hen]
      cases algebraic_to_pos en with
      | none => rfl
      | some p =>
        cases parseInt h with
        | none => rfl
        | some hv =>
          cases parseInt f with
          | none => rfl
          | some fv => rfl

/-- Claim C4 counterexample: a six-field configuration string whose
side-to-move token is the unrecognized `x` is loaded successfully (black to
move) instead of failing. -/
theorem load_fen_bad_turn_counterexample :
    (load_fen "8/8/8/8/8/8/8/8 x - - 0 1").map (fun g => g.white_to_move) =
      some false := by decide

/-- Claim C5 (amended): when the queried side has no king on the board,
`locate_king` returns the sentinel (-1, -1) and `in_check` returns the
ordinary boolean `square_attacked_by (-1, -1)` from the opposing side,
rather than failing. -/
theorem in_check_no_king (g : GameState) (wst : Bool)
    (h : ∀ r ∈ List.range 8, ∀ c ∈ List.range 8,
        bget g.board (Int.ofNat r) (Int.ofNat c) ≠
          Sq.s (if wst then Side.w else Side.b) Kind.K) :
    locate_king g (if wst then Side.w else Side.b) = (-1, -1) ∧
    in_check g wst =
      square_attacked_by g (-1) (-1)
        (if (if wst then Side.w else Side.b) = Side.w then Side.b
         else Side.w) := by
  have hlk : locate_king g (if wst then Side.w else Side.b) = (-1, -1) := by
    unfold locate_king
    have hnone : (List.range 8).findSome? (fun r =>
        (List.range 8).findSome? (fun c =>
          if bget g.board (Int.ofNat r) (Int.ofNat c) =
              Sq.s (if wst then Side.w else Side.b) Kind.K then
            some (Int.ofNat r, Int.ofNat c)
          else none)) = none := by
      rw [List.findSome?_eq_none_iff]
      intro r hr
      rw [List.findSome?_eq_none_iff]
      intro c hc
      rw [if_neg (h r hr c hc)]
    rw [hnone]
  refine ⟨hlk, ?_⟩
  simp only [in_check, hlk]

/-- Claim C5 counterexample: on a board with no white king, `in_check` for
white returns the boolean false (via the (-1,-1) sentinel) instead of
failing with an invariant violation. -/
theorem in_check_no_king_counterexample :
    (load_fen "8/8/8/8/8/8/8/7k w - - 0 1").map
        (fun g => (locate_king g Side.w, in_check g true)) =
      some ((-1, -1), false) := by decide

/-- Claim C5 witness: the sentinel behaviour instantiated on the concrete
kingless position. -/
theorem in_check_no_king_witness :
    (∀ r ∈ List.range 8, ∀ c ∈ List.range 8,
        bget g5cex.board (Int.ofNat r) (Int.ofNat c) ≠
          Sq.s (if true then Side.w else Side.b) Kind.K) ∧
    (locate_king g5cex (if true then Side.w else Side.b) = (-1, -1) ∧
     in_check g5cex true =
       square_attacked_by g5cex (-1) (-1)
         (if (if true then Side.w else Side.b) = Side.w then Side.b
          else Side.w)) :=
  ⟨by decide, in_check_no_king g5cex true (by decide)⟩

/-- Claim C9: after `get_all_legal_moves` on a position whose generated
moves are all exactly reversible: an empty list with the side to move in
check sets the checkmate flag, an empty list without check sets the
stalemate flag, and a non-empty list clears both flags. -/
theorem terminal_flags_spec (g : GameState) (h : StateWF g) :
    ((get_all_legal_moves g).1 = [] →
       (in_check g g.white_to_move = true →
          (get_all_legal_moves g).2.checkmate = true) ∧
       (in_check g g.white_to_move = false →
          (get_all_legal_moves g).2.stalemate = true)) ∧
    ((get_all_legal_moves g).1 ≠ [] →
       (get_all_legal_moves g).2.checkmate = false ∧
       (get_all_legal_moves g).2.stalemate = false) := by
  rw [get_all_legal_moves_eq g h]
  constructor
  · intro hL
    simp only at hL
    constructor
    · intro hin
      simp [hL, hin]
    · intro hin
      simp [hL, hin]
  · intro hL
    simp only at hL
    simp [hL]

/-- Claim C9 witness: at the start position the legal-move list is non-empty
and both terminal flags are cleared. -/
theorem terminal_flags_spec_witness :
    StateWF init_state ∧
    ((get_all_legal_moves init_state).1 = [] →
       (in_check init_state init_state.white_to_move = true →
          (get_all_legal_moves init_state).2.checkmate = true) ∧
       (in_check init_state init_state.white_to_move = false →
          (get_all_legal_moves init_state).2.stalemate = true)) ∧
    ((get_all_legal_moves init_state).1 ≠ [] →
       (get_all_legal_moves init_state).2.checkmate = false ∧
       (get_all_legal_moves init_state).2.stalemate = false) :=
  ⟨by decide, terminal_flags_spec init_state (by decide)⟩

/-- Claim C6 witness: the clock updates instantiated on the first pawn push
from the start position. -/
theorem halfmove_fullmove_update_witness :
    mW ∈ generate_pseudo_legal init_state (toMove init_state) ∧
    ((make_move init_state mW).1.halfmove_clock =
      (if sqKindIs mW.piece Kind.P = true ∨ mW.captured ≠ none then 0
       else init_state.halfmove_clock + 1) ∧
     (make_move init_state mW).1.fullmove_number =
       init_state.fullmove_number +
         (if init_state.white_to_move then 0 else 1)) :=
  ⟨by decide, halfmove_fullmove_update init_state mW (by decide)⟩

/-- Claim C8 witness: the en-passant recomputation instantiated on the a2-a4
double push from the start position. -/
theorem en_passant_update_witness :
    mW2 ∈ generate_pseudo_legal init_state (toMove init_state) ∧
    ((sqKindIs mW2.piece Kind.P = true ∧
        (mW2.endSq.1 - mW2.start.1).natAbs = 2 →
       mW2.endSq.2 = mW2.start.2 ∧
       (make_move init_state mW2).1.en_passant =
         some ((mW2.start.1 + mW2.endSq.1).fdiv 2, mW2.start.2)) ∧
     (¬(sqKindIs mW2.piece Kind.P = true ∧
         (mW2.endSq.1 - mW2.start.1).natAbs = 2) →
       (make_move init_state mW2).1.en_passant = none)) :=
  ⟨by decide, en_passant_update init_state mW2 (by decide)⟩
